import Mathlib

/-!
Verification of the next-crud record-management app (Students/Instructors over
MongoDB via Mongoose, Next.js API routes).

Shallow embedding:
* JS strings are `List Char`; `String.trim` is `trimChars`; the case folding
  performed by `String.toLowerCase` / the regex `i` flag is `Char.toLower`
  (the app's data is ASCII; `Char.toLower` maps exactly `A`-`Z`).
* Mongo regular expressions are embedded by the `Regex` type below, covering
  the constructs the app actually builds: character classes, concatenation and
  one-or-more repetition of a class.  `new RegExp(q, 'i')` on a user query is
  `parseQuery`, which treats `.` as the any-character wildcard and every other
  character as a (case-folded) literal; the anchored e-mail pattern
  `^\S+@\S+\.\S+$` of both schemas is `emailPattern`.
* Mongoose `Number` fields are `Rat` (JS numbers; the fractional/integral
  distinction matters for the age rules, rounding never does here).
* The two collections are `List Entity`; Mongo's unique index on `email` and
  the `ObjectId` cast are modelled inside the repository operations.
-/

namespace NextCrud

/-- JS `String.trim`: drop whitespace from both ends (embeds the `trim: true`
schema setter and `searchParams.get('q')?.trim()`). -/
def trimChars (l : List Char) : List Char :=
  ((l.dropWhile Char.isWhitespace).reverse.dropWhile Char.isWhitespace).reverse

/-- A regular-expression fragment sufficient for the two patterns the app
builds: single-character classes, concatenation, and `+` on a class. -/
inductive Regex where
  | eps : Regex
  | cls : (Char → Bool) → Regex
  | cat : Regex → Regex → Regex
  | plus : (Char → Bool) → Regex

/-- Anchored acceptance: the whole string matches the pattern. -/
def Regex.accepts : Regex → List Char → Bool
  | .eps, l => l.isEmpty
  | .cls p, l =>
    match l with
    | [c] => p c
    | _ => false
  | .cat r s, l =>
    (List.range (l.length + 1)).any fun i => r.accepts (l.take i) && s.accepts (l.drop i)
  | .plus p, l => !l.isEmpty && l.all p

/-- Unanchored search (Mongo `$regex` matches anywhere in the field). -/
def Regex.found (r : Regex) (l : List Char) : Bool :=
  (List.range (l.length + 1)).any fun i =>
    (List.range (l.length + 1)).any fun j => r.accepts ((l.drop i).take j)

/-- Case-folded literal character, as compiled by a regex with the `i` flag. -/
def litCls (c : Char) : Char → Bool := fun d => Char.toLower d == Char.toLower c

/-- Compilation of `new RegExp(q, 'i')` for a query `q`: `.` is the wildcard, every other
character of the queries this development reasons about is a literal. -/
def parseQuery : List Char → Regex
  | [] => .eps
  | c :: cs =>
    .cat (if c = '.' then Regex.cls (fun _ => true) else Regex.cls (litCls c)) (parseQuery cs)

/-- Class `\S`: any non-whitespace character. -/
def nonWs : Char → Bool := fun c => !c.isWhitespace

/-- The schema e-mail pattern `^\S+@\S+\.\S+$` (same literal in both the
Student and the Instructor schema). -/
def emailPattern : Regex :=
  .cat (.plus nonWs)
    (.cat (.cls fun c => c == '@')
      (.cat (.plus nonWs)
        (.cat (.cls fun c => c == '.') (.plus nonWs))))

/-- The `match` validator of the `email` path. -/
def emailAccepts (e : List Char) : Bool := emailPattern.accepts e

/-- The query `q` occurs in `s` as a case-insensitive substring (the reading
of "case-insensitive substring match" used by the specification). -/
def substrI (q s : List Char) : Prop :=
  ∃ l1 l2, s.map Char.toLower = l1 ++ q.map Char.toLower ++ l2

/-- Characters that JS regular expressions treat specially; a query avoiding
all of them is matched purely literally. -/
def jsRegexMeta (c : Char) : Bool :=
  ['.', '*', '+', '?', '^', '$', '(', ')', '[', ']', '\x7b', '\x7d', '|', '\\', '/'].contains c

/- ### Generic facts about the regex fragment -/

theorem accepts_cat {r s : Regex} {l : List Char} :
    (Regex.cat r s).accepts l = true ↔
      ∃ l1 l2, l = l1 ++ l2 ∧ r.accepts l1 = true ∧ s.accepts l2 = true := by
  simp only [Regex.accepts, List.any_eq_true, List.mem_range, Nat.lt_succ_iff,
    Bool.and_eq_true]
  constructor
  · rintro ⟨i, _, h1, h2⟩
    exact ⟨l.take i, l.drop i, (l.take_append_drop i).symm, h1, h2⟩
  · rintro ⟨l1, l2, rfl, h1, h2⟩
    refine ⟨l1.length, ?_, ?_, ?_⟩
    · simp
    · rw [List.take_left]; exact h1
    · rw [List.drop_left]; exact h2

theorem accepts_cls {p : Char → Bool} {l : List Char} :
    (Regex.cls p).accepts l = true ↔ ∃ c, l = [c] ∧ p c = true := by
  match l with
  | [] => simp [Regex.accepts]
  | [c] => simp [Regex.accepts]
  | c :: d :: t => simp [Regex.accepts]

theorem accepts_eps {l : List Char} : Regex.eps.accepts l = true ↔ l = [] := by
  simp [Regex.accepts, List.isEmpty_iff]

theorem accepts_plus {p : Char → Bool} {l : List Char} :
    (Regex.plus p).accepts l = true ↔ l ≠ [] ∧ ∀ c ∈ l, p c = true := by
  simp [Regex.accepts, List.isEmpty_iff, List.all_eq_true]

theorem found_iff {r : Regex} {l : List Char} :
    r.found l = true ↔ ∃ l1 l2 l3, l = l1 ++ l2 ++ l3 ∧ r.accepts l2 = true := by
  simp only [Regex.found, List.any_eq_true, List.mem_range, Nat.lt_succ_iff]
  constructor
  · rintro ⟨i, _, j, _, h⟩
    exact ⟨l.take i, (l.drop i).take j, (l.drop i).drop j,
      by rw [List.append_assoc, List.take_append_drop, List.take_append_drop], h⟩
  · rintro ⟨l1, l2, l3, rfl, h⟩
    refine ⟨l1.length, ?_, l2.length, ?_, ?_⟩
    · simp
    · simp; omega
    · rw [List.append_assoc, List.drop_left, List.take_left]
      exact h

/-- Every character class of the pattern entails `P`. -/
def Regex.Bounded (P : Char → Prop) : Regex → Prop
  | .eps => True
  | .cls p => ∀ c, p c = true → P c
  | .cat r s => r.Bounded P ∧ s.Bounded P
  | .plus p => ∀ c, p c = true → P c

theorem accepts_bounded {P : Char → Prop} :
    ∀ {r : Regex}, r.Bounded P → ∀ {l : List Char}, r.accepts l = true → ∀ c ∈ l, P c := by
  intro r
  induction r with
  | eps =>
    intro _ l hl
    rw [accepts_eps] at hl
    subst hl
    simp
  | cls p =>
    intro hb l hl
    rw [accepts_cls] at hl
    obtain ⟨c, rfl, hc⟩ := hl
    simpa using hb c hc
  | cat r s ihr ihs =>
    intro hb l hl
    rw [accepts_cat] at hl
    obtain ⟨l1, l2, rfl, h1, h2⟩ := hl
    intro c hc
    rcases List.mem_append.mp hc with h | h
    · exact ihr hb.1 h1 c h
    · exact ihs hb.2 h2 c h
  | plus p =>
    intro hb l hl c hc
    rw [accepts_plus] at hl
    exact hb c (hl.2 c hc)

theorem toLower_idem (c : Char) : Char.toLower (Char.toLower c) = Char.toLower c := by
  unfold Char.toLower
  by_cases h : c.toNat ≥ 65 ∧ c.toNat ≤ 90
  · rw [if_pos h]
    have hv : (c.toNat + 32).isValidChar := Or.inl (by omega)
    have h2 : (Char.ofNat (c.toNat + 32)).toNat = c.toNat + 32 := by
      simp only [Char.ofNat, hv, dif_pos]
      simp [Char.ofNatAux, Char.toNat, UInt32.toNat, BitVec.toNat_ofNatLt]
    rw [if_neg (by rw [h2]; omega)]
  · rw [if_neg h, if_neg h]

theorem map_toLower_idem (l : List Char) :
    (l.map Char.toLower).map Char.toLower = l.map Char.toLower := by
  rw [List.map_map]
  exact List.map_congr_left fun c _ => toLower_idem c

theorem accepts_parseQuery {q l : List Char} (hq : '.' ∉ q) :
    (parseQuery q).accepts l = true ↔ l.map Char.toLower = q.map Char.toLower := by
  induction q generalizing l with
  | nil =>
    simp [parseQuery, accepts_eps, List.map_eq_nil_iff]
  | cons c cs ih =>
    have hc : c ≠ '.' := fun h => hq (h ▸ List.mem_cons_self c cs)
    have hcs : '.' ∉ cs := fun h => hq (List.mem_cons_of_mem c h)
    simp only [parseQuery, if_neg hc]
    rw [accepts_cat]
    constructor
    · rintro ⟨l1, l2, rfl, h1, h2⟩
      rw [accepts_cls] at h1
      obtain ⟨d, rfl, hd⟩ := h1
      have hd2 : Char.toLower d = Char.toLower c := by
        simpa [litCls] using hd
      simp [hd2, (ih hcs).mp h2]
    · intro h
      match l with
      | [] => simp at h
      | d :: l2 =>
        simp only [List.map_cons, List.cons.injEq] at h
        exact ⟨[d], l2, rfl, accepts_cls.mpr ⟨d, rfl, by simp [litCls, h.1]⟩,
          (ih hcs).mpr h.2⟩

theorem found_parseQuery {q s : List Char} (hq : '.' ∉ q) :
    (parseQuery q).found s = true ↔ substrI q s := by
  rw [found_iff]
  constructor
  · rintro ⟨l1, l2, l3, rfl, h⟩
    exact ⟨l1.map Char.toLower, l3.map Char.toLower, by
      simp only [List.map_append]
      rw [(accepts_parseQuery hq).mp h]⟩
  · rintro ⟨a, b, hab⟩
    refine ⟨s.take a.length, (s.drop a.length).take (q.map Char.toLower).length,
      (s.drop a.length).drop (q.map Char.toLower).length, ?_, ?_⟩
    · rw [List.append_assoc, List.take_append_drop, List.take_append_drop]
    · rw [accepts_parseQuery hq]
      rw [List.map_take, List.map_drop, hab, List.append_assoc, List.drop_left,
        List.take_left]

/-- Executable version of `substrI`, used for decidability. -/
def substrIb (q s : List Char) : Bool :=
  (List.range (s.length + 1)).any fun i =>
    (List.range (s.length + 1)).any fun j =>
      ((s.drop i).take j).map Char.toLower == q.map Char.toLower

theorem substrIb_iff {q s : List Char} : substrIb q s = true ↔ substrI q s := by
  simp only [substrIb, List.any_eq_true, List.mem_range, Nat.lt_succ_iff, beq_iff_eq]
  constructor
  · rintro ⟨i, _, j, _, h⟩
    refine ⟨(s.take i).map Char.toLower, ((s.drop i).drop j).map Char.toLower, ?_⟩
    conv_lhs => rw [← List.take_append_drop i s, ← List.take_append_drop j (s.drop i)]
    simp only [List.map_append, h, List.append_assoc]
  · rintro ⟨a, b, hab⟩
    have hlen : a.length + q.length + b.length = s.length := by
      have := congrArg List.length hab
      simpa [Nat.add_assoc] using this.symm
    refine ⟨a.length, by omega, q.length, by omega, ?_⟩
    rw [List.map_take, List.map_drop, hab]
    have : a ++ q.map Char.toLower ++ b = a ++ (q.map Char.toLower ++ b) := by
      rw [List.append_assoc]
    rw [this, List.drop_left]
    have : q.length = (q.map Char.toLower).length := by simp
    rw [this, List.take_left]

instance substrI.decidable (q s : List Char) : Decidable (substrI q s) :=
  decidable_of_iff (substrIb q s = true) substrIb_iff

theorem trimChars_eq_self {l : List Char} (h : ∀ c ∈ l, c.isWhitespace = false) :
    trimChars l = l := by
  have step : ∀ m : List Char, (∀ c ∈ m, c.isWhitespace = false) →
      m.dropWhile Char.isWhitespace = m := by
    intro m hm
    match m with
    | [] => rfl
    | c :: t => simp [List.dropWhile_cons, hm c (List.mem_cons_self c t)]
  rw [trimChars, step l h, step l.reverse (by simpa using h), List.reverse_reverse]

theorem emailAccepts_no_ws {e : List Char} (h : emailAccepts e = true) :
    ∀ c ∈ e, c.isWhitespace = false := by
  have hb : emailPattern.Bounded (fun c => c.isWhitespace = false) := by
    refine ⟨?_, ?_, ?_, ?_, ?_⟩
    · intro c hc; simpa [nonWs] using hc
    · intro c hc
      have : c = '@' := by simpa using hc
      subst this; decide
    · intro c hc; simpa [nonWs] using hc
    · intro c hc
      have : c = '.' := by simpa using hc
      subst this; decide
    · intro c hc; simpa [nonWs] using hc
  exact accepts_bounded hb h

/- ### Data model and repository operations -/

/-- The typed failures raised below the API surface: Mongoose validation
failures, the Mongo duplicate-key error (code 11000), the ObjectId cast
error thrown for malformed ids, and a failed `mongoose.connect`. -/
inductive DbErr where
  | validationError
  | duplicateKey
  | castError
  | connectionFailed
deriving DecidableEq

/-- A persisted document of either collection (Student and Instructor have
the same shape; `timestamps: true` adds `createdAt`/`updatedAt`). -/
structure Entity where
  id : String
  name : List Char
  age : Rat
  email : List Char
  createdAt : Nat
  updatedAt : Nat
deriving DecidableEq

/-- The `{name, age, email}` fields of a create request body (a field can be
absent from the JSON). -/
structure Candidate where
  name : Option (List Char)
  age : Option Rat
  email : Option (List Char)
deriving DecidableEq

/-- A partial update body for `findByIdAndUpdate`. -/
structure UpdateBody where
  name : Option (List Char)
  age : Option Rat
  email : Option (List Char)
deriving DecidableEq

/-- A well-formed Mongo ObjectId: 24 hexadecimal characters.  `findById` and
friends throw a cast error on anything else. -/
def validObjectId (s : String) : Bool :=
  s.data.length == 24 && s.data.all fun c =>
    c.isDigit || (('a' ≤ c) && (c ≤ 'f')) || (('A' ≤ c) && (c ≤ 'F'))

/-- The Mongoose setters of the `email` path: the Student schema declares
`trim: true, lowercase: true`, the Instructor schema only `lowercase: true`
(`te` selects the kind: `true` = Student, `false` = Instructor). -/
def normEmail (te : Bool) (e : List Char) : List Char :=
  (if te then trimChars e else e).map Char.toLower

/-- Schema validation as run by `save()`: `name` is required and trimmed (an
all-whitespace name fails `required` after the `trim` setter), `age` is a
required `Number` with `min: 1`, `email` is normalized by its setters and
must match `^\S+@\S+\.\S+$`.  Returns the normalized field values. -/
def validateFields (te : Bool) (c : Candidate) : Except DbErr (List Char × Rat × List Char) :=
  match c.name with
  | none => .error .validationError
  | some n =>
    if (trimChars n).isEmpty then .error .validationError
    else
      match c.age with
      | none => .error .validationError
      | some a =>
        if a < 1 then .error .validationError
        else
          match c.email with
          | none => .error .validationError
          | some e =>
            if emailAccepts (normEmail te e) then .ok (trimChars n, a, normEmail te e)
            else .error .validationError

/-- Creation, `new Model(fields)` + `save()`: validate, let the unique index on `email`
reject a duplicate (error code 11000), otherwise persist a fresh document
with both timestamps set to now. -/
def saveEntity (te : Bool) (db : List Entity) (c : Candidate) (freshId : String) (now : Nat) :
    Except DbErr (Entity × List Entity) :=
  match validateFields te c with
  | .error e => .error e
  | .ok (n, a, e) =>
    if db.any fun s => s.email == e then .error .duplicateKey
    else
      let st : Entity := ⟨freshId, n, a, e, now, now⟩
      .ok (st, st :: db)

/-- Lookup `Model.findById(id)`: cast error on a malformed id, otherwise `null` or
the document. -/
def findById (db : List Entity) (id : String) : Except DbErr (Option Entity) :=
  if validObjectId id then .ok (db.find? fun s => s.id == id) else .error .castError

/-- Update `Model.findByIdAndUpdate(id, body, {new: true, runValidators: true})`
with `timestamps: true`: cast error on a malformed id; `null` when no
document has the id; otherwise apply the schema setters and validators to
each supplied path, let the unique index reject a duplicate email, write the
given fields, bump `updatedAt`, and return the new document. -/
def findByIdAndUpdate (te : Bool) (db : List Entity) (id : String) (u : UpdateBody) (now : Nat) :
    Except DbErr (Option (Entity × List Entity)) :=
  if validObjectId id then
    match db.find? fun s => s.id == id with
    | none => .ok none
    | some e =>
      match (match u.name with
             | none => some e.name
             | some n => if (trimChars n).isEmpty then none else some (trimChars n)) with
      | none => .error .validationError
      | some n2 =>
        match (match u.age with
               | none => some e.age
               | some a => if a < 1 then none else some a) with
        | none => .error .validationError
        | some a2 =>
          match (match u.email with
                 | none => some (e.email, false)
                 | some m =>
                   if emailAccepts (normEmail te m) then some (normEmail te m, true)
                   else none) with
          | none => .error .validationError
          | some (m2, emailUpdated) =>
            if emailUpdated && db.any fun s => !(s.id == id) && s.email == m2 then
              .error .duplicateKey
            else
              let e2 : Entity := ⟨e.id, n2, a2, m2, e.createdAt, now⟩
              .ok (some (e2, db.map fun s => if s.id == id then e2 else s))
  else .error .castError

/-- Deletion `Model.findByIdAndDelete(id)`: cast error on a malformed id, `null` when
absent, otherwise remove and return the document. -/
def findByIdAndDelete (db : List Entity) (id : String) :
    Except DbErr (Option (Entity × List Entity)) :=
  if validObjectId id then
    match db.find? fun s => s.id == id with
    | none => .ok none
    | some e => .ok (some (e, db.filter fun s => !(s.id == id)))
  else .error .castError

/- ### Connection manager (src/lib/db.js) -/

/-- The module-level cache `global.mongoose = { conn, promise }`. -/
structure ConnCache where
  conn : Option Nat
  promise : Option (Except Unit Nat)

/-- One call to `connectToDatabase()`.  `attempt` is the outcome a fresh
`mongoose.connect` would have during this call; it is consulted only when no
connection is cached and no attempt is in flight.  Returns the result handed
to the caller together with the cache left behind: a cached handle is
returned as is; a successful attempt is cached; a failed attempt clears
`cached.promise` (both the `.catch` handler and the surrounding `catch`
reset it) and the error is rethrown. -/
def connectToDatabase (st : ConnCache) (attempt : Except Unit Nat) :
    Except Unit Nat × ConnCache :=
  match st.conn with
  | some c => (.ok c, st)
  | none =>
    match st.promise.getD attempt with
    | .ok c => (.ok c, ⟨some c, some (.ok c)⟩)
    | .error e => (.error e, ⟨none, none⟩)

/- ### Sort orders used by the queries -/

/-- Lexicographic comparison of names by code point, the order produced by
Mongo's `sort({ name: 1 })` on the app's ASCII data. -/
def nameLe : List Char → List Char → Bool
  | [], _ => true
  | _ :: _, [] => false
  | a :: as, b :: bs =>
    if a.toNat < b.toNat then true
    else if b.toNat < a.toNat then false
    else nameLe as bs

theorem nameLe_total : ∀ a b, nameLe a b = true ∨ nameLe b a = true := by
  intro a
  induction a with
  | nil => intro b; left; rfl
  | cons x xs ih =>
    intro b
    match b with
    | [] => right; rfl
    | y :: ys =>
      by_cases h1 : x.toNat < y.toNat
      · left; simp [nameLe, h1]
      · by_cases h2 : y.toNat < x.toNat
        · right; simp [nameLe, h2]
        · rcases ih ys with h | h
          · left; simp [nameLe, h1, h2, h]
          · right
            simp only [nameLe, if_neg h2, if_neg h1]
            exact h

theorem nameLe_trans :
    ∀ a b c, nameLe a b = true → nameLe b c = true → nameLe a c = true := by
  intro a
  induction a with
  | nil => intro b c _ _; rfl
  | cons x xs ih =>
    intro b c hab hbc
    match b, c with
    | [], _ => simp [nameLe] at hab
    | _ :: _, [] => simp [nameLe] at hbc
    | y :: ys, z :: zs =>
      simp only [nameLe] at hab hbc ⊢
      by_cases hxy : x.toNat < y.toNat
      · by_cases hyz : y.toNat < z.toNat
        · rw [if_pos (by omega)]
        · rw [if_neg hyz] at hbc
          by_cases hzy : z.toNat < y.toNat
          · simp [hzy] at hbc
          · rw [if_pos (by omega)]
      · rw [if_neg hxy] at hab
        by_cases hyx : y.toNat < x.toNat
        · simp [hyx] at hab
        · rw [if_neg hyx] at hab
          by_cases hyz : y.toNat < z.toNat
          · rw [if_pos (by omega)]
          · rw [if_neg hyz] at hbc
            by_cases hzy : z.toNat < y.toNat
            · simp [hzy] at hbc
            · rw [if_neg hzy] at hbc
              rw [if_neg (by omega), if_neg (by omega)]
              exact ih ys zs hab hbc

/-- Order `sort({ name: 1 })` on documents. -/
def entLe (a b : Entity) : Prop := nameLe a.name b.name = true

instance : DecidableRel entLe := fun a b =>
  inferInstanceAs (Decidable (nameLe a.name b.name = true))

instance : IsTotal Entity entLe := ⟨fun a b => nameLe_total a.name b.name⟩

instance : IsTrans Entity entLe := ⟨fun _ _ _ h1 h2 => nameLe_trans _ _ _ h1 h2⟩

/-- Order `sort({ createdAt: -1 })` (newest first) used by the list routes. -/
def createdDesc (a b : Entity) : Prop := b.createdAt ≤ a.createdAt

instance : DecidableRel createdDesc := fun a b =>
  inferInstanceAs (Decidable (b.createdAt ≤ a.createdAt))

instance : IsTotal Entity createdDesc := ⟨fun a b => Nat.le_total b.createdAt a.createdAt⟩

instance : IsTrans Entity createdDesc := ⟨fun _ _ _ h1 h2 => Nat.le_trans h2 h1⟩

/- ### Search query (GET /api/students/search) -/

/-- What `.select('name age email')` returns for one document.  This is an
INCLUSIVE Mongoose projection: `_id` is included by default unless excluded
explicitly (e.g. `-_id`), so the projected document keeps the id and drops
only the remaining fields (`createdAt`, `updatedAt`, `__v`). -/
structure SearchDoc where
  id : String
  name : List Char
  age : Rat
  email : List Char
deriving DecidableEq

/-- The `$or` filter: the query regex found in `name` or in `email`. -/
def searchFilter (q : List Char) (s : Entity) : Bool :=
  (parseQuery q).found s.name || (parseQuery q).found s.email

/-- The Mongo query of the search route: filter by `$or` of the two regex
clauses, sort by name ascending, `limit(50)`, project each document. -/
def searchQuery (db : List Entity) (q : List Char) : List SearchDoc :=
  ((List.insertionSort entLe (db.filter (searchFilter q))).take 50).map
    fun s => ⟨s.id, s.name, s.age, s.email⟩

/- ### API route handlers -/

/-- The body of a `POST` response, tagging which branch produced it. -/
inductive PostResp where
  | created (st : Entity)
  | missingFields
  | emailExists
  | failed
deriving DecidableEq

/-- JS truthiness of the destructured string fields: `undefined` and `""`
are falsy. -/
def jsFalsyStr : Option (List Char) → Bool
  | none => true
  | some s => s.isEmpty

/-- JS truthiness of the `age` field: `undefined` and `0` are falsy. -/
def jsFalsyNum : Option Rat → Bool
  | none => true
  | some a => a == 0

/-- Handler for `POST /api/students` and `POST /api/instructors` (identical logic): on a
caught error, `error.code === 11000` yields 400 "Email already exists" and
anything else (including validation failures and a failed connect) yields
500; a falsy `name`, `age` or `email` yields 400 "All fields are required"
before anything is saved. -/
def POST_entity (te : Bool) (conn : Except Unit Unit) (db : List Entity) (body : Candidate)
    (freshId : String) (now : Nat) : Nat × PostResp × List Entity :=
  match conn with
  | .error _ => (500, .failed, db)
  | .ok _ =>
    if jsFalsyStr body.name || jsFalsyNum body.age || jsFalsyStr body.email then
      (400, .missingFields, db)
    else
      match saveEntity te db body freshId now with
      | .ok (st, db2) => (201, .created st, db2)
      | .error .duplicateKey => (400, .emailExists, db)
      | .error _ => (500, .failed, db)

/-- Handler for `GET /api/students/[id]` and `GET /api/instructors/[id]`: 404 when the
lookup returns `null`; the catch block maps EVERY thrown error (cast error
and also a failed connect) to 400. -/
def GET_entity_byId (conn : Except Unit Unit) (db : List Entity) (id : String) :
    Nat × Option Entity :=
  match conn with
  | .error _ => (400, none)
  | .ok _ =>
    match findById db id with
    | .error _ => (400, none)
    | .ok none => (404, none)
    | .ok (some e) => (200, some e)

/-- Handler for `PUT /api/students/[id]` and `PUT /api/instructors/[id]`: 404 when the
update returns `null`; the catch block maps every thrown error (validation,
duplicate, cast error, failed connect) to 400. -/
def PUT_entity (te : Bool) (conn : Except Unit Unit) (db : List Entity) (id : String)
    (u : UpdateBody) (now : Nat) : Nat × List Entity :=
  match conn with
  | .error _ => (400, db)
  | .ok _ =>
    match findByIdAndUpdate te db id u now with
    | .error _ => (400, db)
    | .ok none => (404, db)
    | .ok (some (_, db2)) => (200, db2)

/-- Handler for `DELETE /api/students/[id]` and `DELETE /api/instructors/[id]`: 404 when
the delete returns `null`; the catch block maps every thrown error
(including the cast error for a malformed id) to 500. -/
def DELETE_entity (conn : Except Unit Unit) (db : List Entity) (id : String) :
    Nat × List Entity :=
  match conn with
  | .error _ => (500, db)
  | .ok _ =>
    match findByIdAndDelete db id with
    | .error _ => (500, db)
    | .ok none => (404, db)
    | .ok (some (_, db2)) => (200, db2)

/-- Handler for `GET /api/students` and `GET /api/instructors`: the full collection
sorted newest first; every caught error maps to 500. -/
def GET_entities (conn : Except Unit Unit) (db : List Entity) :
    Nat × Option (List Entity) :=
  match conn with
  | .error _ => (500, none)
  | .ok _ => (200, some (List.insertionSort createdDesc db))

/-- Handler for `GET /api/students/search?q=`: a missing query or one that trims to the
empty string returns 200 `[]` BEFORE `connectToDatabase()` is invoked (the
handler never consults `conn` or `db` on that path); otherwise the Mongo
query runs and any caught error maps to 500. -/
def GET_students_search (conn : Except Unit Unit) (db : List Entity)
    (q : Option (List Char)) : Nat × Option (List SearchDoc) :=
  match q with
  | none => (200, some [])
  | some q0 =>
    if (trimChars q0).isEmpty then (200, some [])
    else
      match conn with
      | .error _ => (500, none)
      | .ok _ => (200, some (searchQuery db (trimChars q0)))

/- ### Helper lemmas about the repository -/

theorem find?_id {db : List Entity} {e : Entity} {id : String}
    (hp : db.Pairwise fun a b => a.id ≠ b.id) (he : e ∈ db) (hid : e.id = id) :
    db.find? (fun s => s.id == id) = some e := by
  induction db with
  | nil => cases he
  | cons a t ih =>
    rw [List.pairwise_cons] at hp
    rcases List.mem_cons.mp he with rfl | ht
    · simp [List.find?, hid]
    · have hne : (a.id == id) = false := by
        simp only [beq_eq_false_iff_ne, ne_eq]
        exact fun h => hp.1 e ht (h.trans hid.symm)
      simp only [List.find?, hne]
      exact ih hp.2 ht

theorem id_unique {db : List Entity} {a b : Entity}
    (hp : db.Pairwise fun x y => x.id ≠ y.id) (ha : a ∈ db) (hb : b ∈ db)
    (heq : a.id = b.id) : a = b := by
  by_contra hne
  have hs : Symmetric fun x y : Entity => x.id ≠ y.id := by
    intro x y h hyx
    exact h hyx.symm
  exact hp.forall hs ha hb hne heq

/-- The invariant the spec states for stored e-mail values. -/
def EmailOk (e : List Char) : Prop :=
  emailAccepts e = true ∧ trimChars e = e ∧ e.map Char.toLower = e

/-- The data-model invariant for one collection: every stored email is
normalized and pattern-valid, emails are pairwise distinct, and ids are
pairwise distinct (Mongo ObjectIds). -/
def DbInv (db : List Entity) : Prop :=
  (∀ s ∈ db, EmailOk s.email) ∧
  (db.Pairwise fun a b => a.email ≠ b.email) ∧
  (db.Pairwise fun a b => a.id ≠ b.id)

theorem EmailOk_norm {te : Bool} {x : List Char}
    (h : emailAccepts (normEmail te x) = true) : EmailOk (normEmail te x) := by
  refine ⟨h, trimChars_eq_self (emailAccepts_no_ws h), ?_⟩
  unfold normEmail
  exact map_toLower_idem _

theorem validateFields_ok {te : Bool} {c : Candidate} {n : List Char} {a : Rat}
    {e : List Char} (h : validateFields te c = .ok (n, a, e)) :
    EmailOk e ∧ 1 ≤ a := by
  unfold validateFields at h
  split at h
  · cases h
  · split at h
    · cases h
    · split at h
      · cases h
      · split at h
        next hlt => cases h
        next hlt =>
          split at h
          · cases h
          · split at h
            next hacc =>
              rw [Except.ok.injEq, Prod.mk.injEq, Prod.mk.injEq] at h
              obtain ⟨-, ha, he⟩ := h
              subst ha; subst he
              exact ⟨EmailOk_norm hacc, le_of_not_lt hlt⟩
            · cases h

/- ### C6: empty or whitespace-only query short-circuits -/

/-- C6: a search request whose query is absent, or trims to the empty
string, answers 200 `[]` whatever the connection outcome and whatever the
stored data are — the handler returns before `connectToDatabase()` and the
Mongo query, so no connection or storage access takes place (the result is
independent of both `conn` and `db`). -/
theorem C6_empty_query_fast_path :
    (∀ (q0 : List Char) (conn : Except Unit Unit) (db : List Entity),
      trimChars q0 = [] → GET_students_search conn db (some q0) = (200, some [])) ∧
    (∀ (conn : Except Unit Unit) (db : List Entity),
      GET_students_search conn db none = (200, some [])) := by
  constructor
  · intro q0 conn db h
    simp [GET_students_search, h]
  · intro conn db
    rfl

/-- Witness for C6: a whitespace-only query answered 200 `[]` even though
the connection attempt fails and the store is non-empty. -/
theorem C6_empty_query_fast_path_witness :
    GET_students_search (.error ()) [⟨"aaaaaaaaaaaaaaaaaaaaaaaa", ['x'], mkRat 20 1,
      ['q', '@', 'w', '.', 'e'], 0, 0⟩] (some [' ', ' ']) = (200, some []) :=
  C6_empty_query_fast_path.1 [' ', ' '] (.error ()) _ (by decide)

/- ### C7: failed connection attempt clears the pending marker -/

/-- C7: when no connection is cached and the awaited attempt fails,
`connectToDatabase` propagates the error to the caller and leaves
`cached = { conn: null, promise: null }`: no handle is cached and the
pending-operation marker is cleared, so a later call consults a fresh
attempt (second conjunct). -/
theorem C7_connection_failure_resets :
    (∀ (st : ConnCache) (attempt : Except Unit Nat) (e : Unit),
      st.conn = none → st.promise.getD attempt = .error e →
      connectToDatabase st attempt = (.error e, ⟨none, none⟩)) ∧
    (∀ c : Nat, connectToDatabase ⟨none, none⟩ (.ok c) = (.ok c, ⟨some c, some (.ok c)⟩)) := by
  constructor
  · intro st attempt e h1 h2
    obtain ⟨conn, promise⟩ := st
    cases h1
    simp only [connectToDatabase] at h2 ⊢
    rw [h2]
  · intro c
    rfl

/-- Witness for C7: a failed in-flight attempt is propagated, the marker is
cleared, and the next call succeeds with a fresh attempt. -/
theorem C7_connection_failure_resets_witness :
    connectToDatabase ⟨none, some (.error ())⟩ (.ok 7) = (.error (), ⟨none, none⟩) ∧
    connectToDatabase ⟨none, none⟩ (.ok 5) = (.ok 5, ⟨some 5, some (.ok 5)⟩) :=
  ⟨C7_connection_failure_resets.1 ⟨none, some (.error ())⟩ (.ok 7) () rfl rfl,
    C7_connection_failure_resets.2 5⟩

/- ### C8: a successful connection is cached as a singleton -/

/-- C8: once a `connectToDatabase` call has returned a handle, that handle
is stored in `cached.conn`, and every subsequent call returns the very same
handle and leaves the cache untouched, regardless of what a fresh attempt
would do — no new connection attempt is ever initiated. -/
theorem C8_connection_cached (st : ConnCache) (attempt : Except Unit Nat)
    (c : Nat) (st2 : ConnCache) (h : connectToDatabase st attempt = (.ok c, st2)) :
    st2.conn = some c ∧ ∀ attempt2, connectToDatabase st2 attempt2 = (.ok c, st2) := by
  obtain ⟨conn, promise⟩ := st
  match conn with
  | some c0 =>
    simp only [connectToDatabase] at h
    rw [Prod.mk.injEq, Except.ok.injEq] at h
    obtain ⟨rfl, rfl⟩ := h
    exact ⟨rfl, fun attempt2 => rfl⟩
  | none =>
    simp only [connectToDatabase] at h
    match hp : (Option.getD promise attempt : Except Unit Nat) with
    | .ok c1 =>
      rw [hp] at h
      rw [Prod.mk.injEq, Except.ok.injEq] at h
      obtain ⟨rfl, rfl⟩ := h
      exact ⟨rfl, fun attempt2 => rfl⟩
    | .error e =>
      rw [hp] at h
      cases h

/-- Witness for C8: after a first successful call the handle `5` is cached
and a later call with a different (even failing) fresh attempt still
returns `5` with the cache unchanged. -/
theorem C8_connection_cached_witness :
    (⟨some 5, some (.ok 5)⟩ : ConnCache).conn = some 5 ∧
    ∀ attempt2, connectToDatabase ⟨some 5, some (.ok 5)⟩ attempt2 =
      (.ok 5, ⟨some 5, some (.ok 5)⟩) :=
  C8_connection_cached ⟨none, none⟩ (.ok 5) 5 ⟨some 5, some (.ok 5)⟩ rfl

/- ### C10: age 0 is caught by the falsy required-fields check -/

/-- C10: a create request whose body carries `age: 0` (present but falsy in
JS) is answered 400 "All fields are required" by the required-fields check
of both POST handlers — whatever the other fields contain, nothing is
validated against the schema and nothing is written (the store is returned
unchanged), and the response is the missing-fields error rather than the
invalid-age validation error. -/
theorem C10_zero_age_missing_fields (te : Bool) (db : List Entity)
    (nm em : Option (List Char)) (freshId : String) (now : Nat) :
    POST_entity te (.ok ()) db ⟨nm, some 0, em⟩ freshId now = (400, .missingFields, db) := by
  have hfals : jsFalsyNum (some 0) = true := by
    simp [jsFalsyNum]
  simp [POST_entity, hfals]

/- ### C9: update with {age: 30} touches only age and updatedAt -/

/-- C9: for an existing document `e` (of either kind, `te` selects the
collection), `findByIdAndUpdate(id, { age: 30 }, ...)` succeeds and returns
the document with `age = 30` and `updatedAt = now`, while `id`, `name`,
`email` and `createdAt` are exactly those of `e`; the store afterwards is
the original list with only that document replaced.  The PUT route answers
200 with that store. -/
theorem C9_partial_update_frame (te : Bool) (db : List Entity) (id : String)
    (e : Entity) (now : Nat)
    (hp : db.Pairwise fun a b => a.id ≠ b.id)
    (he : e ∈ db) (hid : e.id = id) (hv : validObjectId id = true) :
    findByIdAndUpdate te db id ⟨none, some (mkRat 30 1), none⟩ now =
      .ok (some (⟨e.id, e.name, mkRat 30 1, e.email, e.createdAt, now⟩,
        db.map fun s =>
          if s.id == id then ⟨e.id, e.name, mkRat 30 1, e.email, e.createdAt, now⟩ else s)) ∧
    PUT_entity te (.ok ()) db id ⟨none, some (mkRat 30 1), none⟩ now =
      (200, db.map fun s =>
        if s.id == id then ⟨e.id, e.name, mkRat 30 1, e.email, e.createdAt, now⟩ else s) := by
  have hfind : db.find? (fun s => s.id == id) = some e := find?_id hp he hid
  have hlt : ¬ (mkRat 30 1 < 1) := by decide
  have h1 : findByIdAndUpdate te db id ⟨none, some (mkRat 30 1), none⟩ now =
      .ok (some (⟨e.id, e.name, mkRat 30 1, e.email, e.createdAt, now⟩,
        db.map fun s =>
          if s.id == id then ⟨e.id, e.name, mkRat 30 1, e.email, e.createdAt, now⟩ else s)) := by
    simp [findByIdAndUpdate, hv, hfind, hlt]
  refine ⟨h1, ?_⟩
  simp only [PUT_entity, h1]

/-- Witness for C9: concrete store of two students; updating the first one's
age to 30 leaves its name, email, id and createdAt intact, bumps updatedAt,
and does not touch the second document. -/
theorem C9_partial_update_frame_witness :
    findByIdAndUpdate true
      [⟨"aaaaaaaaaaaaaaaaaaaaaaaa", ['a', 'n', 'n'], mkRat 20 1,
        ['a', 'n', 'n', '@', 'x', '.', 'c', 'o', 'm'], 3, 4⟩,
       ⟨"bbbbbbbbbbbbbbbbbbbbbbbb", ['b', 'o', 'b'], mkRat 21 1,
        ['b', 'o', 'b', '@', 'x', '.', 'c', 'o', 'm'], 1, 2⟩]
      "aaaaaaaaaaaaaaaaaaaaaaaa" ⟨none, some (mkRat 30 1), none⟩ 9 =
      .ok (some (⟨"aaaaaaaaaaaaaaaaaaaaaaaa", ['a', 'n', 'n'], mkRat 30 1,
        ['a', 'n', 'n', '@', 'x', '.', 'c', 'o', 'm'], 3, 9⟩,
        [⟨"aaaaaaaaaaaaaaaaaaaaaaaa", ['a', 'n', 'n'], mkRat 30 1,
          ['a', 'n', 'n', '@', 'x', '.', 'c', 'o', 'm'], 3, 9⟩,
         ⟨"bbbbbbbbbbbbbbbbbbbbbbbb", ['b', 'o', 'b'], mkRat 21 1,
          ['b', 'o', 'b', '@', 'x', '.', 'c', 'o', 'm'], 1, 2⟩])) ∧
    PUT_entity true (.ok ())
      [⟨"aaaaaaaaaaaaaaaaaaaaaaaa", ['a', 'n', 'n'], mkRat 20 1,
        ['a', 'n', 'n', '@', 'x', '.', 'c', 'o', 'm'], 3, 4⟩,
       ⟨"bbbbbbbbbbbbbbbbbbbbbbbb", ['b', 'o', 'b'], mkRat 21 1,
        ['b', 'o', 'b', '@', 'x', '.', 'c', 'o', 'm'], 1, 2⟩]
      "aaaaaaaaaaaaaaaaaaaaaaaa" ⟨none, some (mkRat 30 1), none⟩ 9 =
      (200,
        [⟨"aaaaaaaaaaaaaaaaaaaaaaaa", ['a', 'n', 'n'], mkRat 30 1,
          ['a', 'n', 'n', '@', 'x', '.', 'c', 'o', 'm'], 3, 9⟩,
         ⟨"bbbbbbbbbbbbbbbbbbbbbbbb", ['b', 'o', 'b'], mkRat 21 1,
          ['b', 'o', 'b', '@', 'x', '.', 'c', 'o', 'm'], 1, 2⟩]) := by
  have h := C9_partial_update_frame true
    [⟨"aaaaaaaaaaaaaaaaaaaaaaaa", ['a', 'n', 'n'], mkRat 20 1,
      ['a', 'n', 'n', '@', 'x', '.', 'c', 'o', 'm'], 3, 4⟩,
     ⟨"bbbbbbbbbbbbbbbbbbbbbbbb", ['b', 'o', 'b'], mkRat 21 1,
      ['b', 'o', 'b', '@', 'x', '.', 'c', 'o', 'm'], 1, 2⟩]
    "aaaaaaaaaaaaaaaaaaaaaaaa"
    ⟨"aaaaaaaaaaaaaaaaaaaaaaaa", ['a', 'n', 'n'], mkRat 20 1,
      ['a', 'n', 'n', '@', 'x', '.', 'c', 'o', 'm'], 3, 4⟩ 9
    (by decide) (by decide) (by decide) (by decide)
  exact ⟨by rw [h.1]; rfl, by rw [h.2]; rfl⟩

/- ### C5: the age rule is only "Number, min: 1" - no integrality check -/

/-- Counterexample to C5: the schemas declare `age: { type: Number, min: 1 }`
with no integer constraint, so a create with the non-integer age 2.5
(which is ≥ 1 but not an integer) is NOT rejected: validation passes and
the document is persisted with age 2.5. -/
theorem C5_counterexample_noninteger_age_saved :
    saveEntity true []
      ⟨some ['b', 'o', 'b'], some (mkRat 5 2),
        some ['b', 'o', 'b', '@', 'x', '.', 'c', 'o', 'm']⟩
      "cccccccccccccccccccccccc" 0 =
      .ok (⟨"cccccccccccccccccccccccc", ['b', 'o', 'b'], mkRat 5 2,
        ['b', 'o', 'b', '@', 'x', '.', 'c', 'o', 'm'], 0, 0⟩,
        [⟨"cccccccccccccccccccccccc", ['b', 'o', 'b'], mkRat 5 2,
          ['b', 'o', 'b', '@', 'x', '.', 'c', 'o', 'm'], 0, 0⟩]) ∧
    (mkRat 5 2).isInt = false ∧ 1 ≤ mkRat 5 2 :=
  ⟨rfl, by decide, by decide⟩

/-- C5 amended: create rejects with a ValidationError whenever the supplied
age is a number < 1 (first conjunct, whatever the other fields hold), but
the only age constraint is `min: 1`: any age ≥ 1 — integer or not — passes
validation, and with valid name/email and a fresh e-mail the document is
persisted with exactly that age (second conjunct). -/
theorem C5_age_min_only :
    (∀ (te : Bool) (db : List Entity) (c : Candidate) (i : String) (now : Nat) (a : Rat),
      c.age = some a → a < 1 → saveEntity te db c i now = .error .validationError) ∧
    (∀ (te : Bool) (db : List Entity) (n e : List Char) (a : Rat) (i : String) (now : Nat),
      (trimChars n).isEmpty = false → 1 ≤ a →
      emailAccepts (normEmail te e) = true →
      (db.any fun s => s.email == normEmail te e) = false →
      saveEntity te db ⟨some n, some a, some e⟩ i now =
        .ok (⟨i, trimChars n, a, normEmail te e, now, now⟩,
          ⟨i, trimChars n, a, normEmail te e, now, now⟩ :: db)) := by
  constructor
  · intro te db c i now a hage hlt
    obtain ⟨cn, ca, ce⟩ := c
    simp only at hage
    subst hage
    match cn with
    | none => rfl
    | some n0 =>
      by_cases hni : (trimChars n0).isEmpty
      · simp [saveEntity, validateFields, hni]
      · simp [saveEntity, validateFields, hni, hlt]
  · intro te db n e a i now hn ha hacc hdup
    have hlt : ¬ (a < 1) := not_lt.mpr ha
    simp [saveEntity, validateFields, hn, hlt, hacc, hdup]

/-- Witness for C5 amended: age 0.5 is rejected with a ValidationError, and
the non-integer age 3.5 is accepted and stored. -/
theorem C5_age_min_only_witness :
    saveEntity false []
      ⟨some ['e', 'v', 'e'], some (mkRat 1 2),
        some ['e', 'v', 'e', '@', 'x', '.', 'c', 'o', 'm']⟩
      "eeeeeeeeeeeeeeeeeeeeeeee" 0 = .error .validationError ∧
    saveEntity false []
      ⟨some ['e', 'v', 'e'], some (mkRat 7 2),
        some ['e', 'v', 'e', '@', 'x', '.', 'c', 'o', 'm']⟩
      "eeeeeeeeeeeeeeeeeeeeeeee" 0 =
      .ok (⟨"eeeeeeeeeeeeeeeeeeeeeeee", ['e', 'v', 'e'], mkRat 7 2,
        ['e', 'v', 'e', '@', 'x', '.', 'c', 'o', 'm'], 0, 0⟩,
        [⟨"eeeeeeeeeeeeeeeeeeeeeeee", ['e', 'v', 'e'], mkRat 7 2,
          ['e', 'v', 'e', '@', 'x', '.', 'c', 'o', 'm'], 0, 0⟩]) := by
  constructor
  · exact C5_age_min_only.1 false [] _ "eeeeeeeeeeeeeeeeeeeeeeee" 0 (mkRat 1 2) rfl (by decide)
  · have h := C5_age_min_only.2 false [] ['e', 'v', 'e']
      ['e', 'v', 'e', '@', 'x', '.', 'c', 'o', 'm'] (mkRat 7 2)
      "eeeeeeeeeeeeeeeeeeeeeeee" 0 (by decide) (by decide) (by decide) (by decide)
    rw [h]
    rfl

/- ### C4: the status mapping is per route, not a global table -/

/-- Counterexample to C4: a create whose body fails schema validation (the
email "bad" does not match the pattern) raises a Mongoose ValidationError,
and the POST handler — whose catch block special-cases only the duplicate
key code 11000 — answers 500, not the claimed 400. -/
theorem C4_counterexample_validation_maps_to_500 :
    saveEntity true []
      ⟨some ['a', 'n', 'n'], some (mkRat 20 1), some ['b', 'a', 'd']⟩
      "dddddddddddddddddddddddd" 0 = .error .validationError ∧
    POST_entity true (.ok ()) []
      ⟨some ['a', 'n', 'n'], some (mkRat 20 1), some ['b', 'a', 'd']⟩
      "dddddddddddddddddddddddd" 0 = (500, .failed, []) ∧
    (500 : Nat) ≠ 400 :=
  ⟨rfl, rfl, by decide⟩

/-- C4 amended: each route maps failures on its own.  NotFound yields 404 on
the id routes (conjunct 11).  POST maps DuplicateKey to 400 (13) but every
other failure — ValidationError (12) and a failed connect (4) — to 500.
GET-by-id and PUT map every thrown failure, including InvalidIdentifier
(10 with 7/8) and a failed connect (1/2), to 400.  DELETE maps every thrown
failure, including InvalidIdentifier, to 500 (3, 9, 10).  The collection and
search routes map all failures to 500 (5, 6). -/
theorem C4_per_route_status :
    (∀ (db : List Entity) (id : String), GET_entity_byId (.error ()) db id = (400, none)) ∧
    (∀ (te : Bool) (db : List Entity) (id : String) (u : UpdateBody) (now : Nat),
      PUT_entity te (.error ()) db id u now = (400, db)) ∧
    (∀ (db : List Entity) (id : String), DELETE_entity (.error ()) db id = (500, db)) ∧
    (∀ (te : Bool) (db : List Entity) (b : Candidate) (i : String) (n : Nat),
      POST_entity te (.error ()) db b i n = (500, .failed, db)) ∧
    (∀ db : List Entity, GET_entities (.error ()) db = (500, none)) ∧
    (∀ (db : List Entity) (q0 : List Char), (trimChars q0).isEmpty = false →
      GET_students_search (.error ()) db (some q0) = (500, none)) ∧
    (∀ (db : List Entity) (id : String) (e : DbErr), findById db id = .error e →
      GET_entity_byId (.ok ()) db id = (400, none)) ∧
    (∀ (te : Bool) (db : List Entity) (id : String) (u : UpdateBody) (now : Nat) (e : DbErr),
      findByIdAndUpdate te db id u now = .error e →
      PUT_entity te (.ok ()) db id u now = (400, db)) ∧
    (∀ (db : List Entity) (id : String) (e : DbErr), findByIdAndDelete db id = .error e →
      DELETE_entity (.ok ()) db id = (500, db)) ∧
    (∀ (db : List Entity) (id : String), validObjectId id = false →
      findById db id = .error .castError ∧ findByIdAndDelete db id = .error .castError ∧
      ∀ (te : Bool) (u : UpdateBody) (now : Nat),
        findByIdAndUpdate te db id u now = .error .castError) ∧
    (∀ (db : List Entity) (id : String), validObjectId id = true →
      db.find? (fun s => s.id == id) = none →
      GET_entity_byId (.ok ()) db id = (404, none) ∧
      DELETE_entity (.ok ()) db id = (404, db) ∧
      ∀ (te : Bool) (u : UpdateBody) (now : Nat),
        PUT_entity te (.ok ()) db id u now = (404, db)) ∧
    (∀ (te : Bool) (db : List Entity) (b : Candidate) (i : String) (n : Nat),
      (jsFalsyStr b.name || jsFalsyNum b.age || jsFalsyStr b.email) = false →
      saveEntity te db b i n = .error .validationError →
      POST_entity te (.ok ()) db b i n = (500, .failed, db)) ∧
    (∀ (te : Bool) (db : List Entity) (b : Candidate) (i : String) (n : Nat),
      (jsFalsyStr b.name || jsFalsyNum b.age || jsFalsyStr b.email) = false →
      saveEntity te db b i n = .error .duplicateKey →
      POST_entity te (.ok ()) db b i n = (400, .emailExists, db)) := by
  refine ⟨fun db id => rfl, fun te db id u now => rfl, fun db id => rfl,
    fun te db b i n => rfl, fun db => rfl, ?_, ?_, ?_, ?_, ?_, ?_, ?_, ?_⟩
  · intro db q0 h
    simp [GET_students_search, h]
  · intro db id e h
    simp [GET_entity_byId, h]
  · intro te db id u now e h
    simp [PUT_entity, h]
  · intro db id e h
    simp [DELETE_entity, h]
  · intro db id h
    exact ⟨by simp [findById, h], by simp [findByIdAndDelete, h],
      fun te u now => by simp [findByIdAndUpdate, h]⟩
  · intro db id hv hfind
    refine ⟨by simp [GET_entity_byId, findById, hv, hfind],
      by simp [DELETE_entity, findByIdAndDelete, hv, hfind],
      fun te u now => by simp [PUT_entity, findByIdAndUpdate, hv, hfind]⟩
  · intro te db b i n hfal hsave
    simp [POST_entity, hfal, hsave]
  · intro te db b i n hfal hsave
    simp [POST_entity, hfal, hsave]

/-- Witness for C4 amended: concrete requests hitting the per-route map —
a failed connect on GET-by-id gives 400; a malformed id on DELETE gives
500; a missing id gives 404; an invalid email on POST gives 500; a
duplicate email on POST gives 400. -/
theorem C4_per_route_status_witness :
    GET_entity_byId (.error ()) [] "aaaaaaaaaaaaaaaaaaaaaaaa" = (400, none) ∧
    DELETE_entity (.ok ()) [] "zz" = (500, []) ∧
    GET_entity_byId (.ok ()) [] "aaaaaaaaaaaaaaaaaaaaaaaa" = (404, none) ∧
    POST_entity true (.ok ()) []
      ⟨some ['a', 'n', 'n'], some (mkRat 20 1), some ['x', 'y']⟩
      "ffffffffffffffffffffffff" 0 = (500, .failed, []) ∧
    POST_entity true (.ok ())
      [⟨"gggggggggggggggggggggggg", ['a', 'n', 'n'], mkRat 20 1,
        ['a', 'n', 'n', '@', 'x', '.', 'c', 'o', 'm'], 0, 0⟩]
      ⟨some ['a', 'n', 'n'], some (mkRat 20 1),
        some ['a', 'n', 'n', '@', 'x', '.', 'c', 'o', 'm']⟩
      "ffffffffffffffffffffffff" 0 =
      (400, .emailExists,
        [⟨"gggggggggggggggggggggggg", ['a', 'n', 'n'], mkRat 20 1,
          ['a', 'n', 'n', '@', 'x', '.', 'c', 'o', 'm'], 0, 0⟩]) := by
  obtain ⟨h1, h2, h3, h4, h5, h6, h7, h8, h9, h10, h11, h12, h13⟩ := C4_per_route_status
  exact ⟨h1 [] "aaaaaaaaaaaaaaaaaaaaaaaa",
    h9 [] "zz" .castError (h10 [] "zz" (by decide)).2.1,
    (h11 [] "aaaaaaaaaaaaaaaaaaaaaaaa" (by decide) rfl).1,
    h12 true [] _ "ffffffffffffffffffffffff" 0 (by decide) rfl,
    h13 true _ _ "ffffffffffffffffffffffff" 0 (by decide) rfl⟩

/- ### C3: the stored-email invariant -/

theorem DbInv_save {te : Bool} {db : List Entity} {c : Candidate} {i : String}
    {now : Nat} {st : Entity} {db2 : List Entity}
    (hinv : DbInv db) (hfresh : ∀ s ∈ db, s.id ≠ i)
    (h : saveEntity te db c i now = .ok (st, db2)) : DbInv db2 := by
  obtain ⟨hE, hPe, hPi⟩ := hinv
  unfold saveEntity at h
  split at h
  next err heq => cases h
  next n a e heq =>
    split at h
    next hdup => cases h
    next hdup =>
      rw [Except.ok.injEq, Prod.mk.injEq] at h
      obtain ⟨hst, hdb2⟩ := h
      subst hst
      subst hdb2
      have hEok := (validateFields_ok heq).1
      have hnotmem : ∀ s ∈ db, s.email ≠ e := by
        intro s hs hEq
        exact hdup (List.any_eq_true.mpr ⟨s, hs, by simp [hEq]⟩)
      refine ⟨?_, ?_, ?_⟩
      · intro s hs
        rcases List.mem_cons.mp hs with rfl | hs
        · exact hEok
        · exact hE s hs
      · rw [List.pairwise_cons]
        exact ⟨fun b hb hEq => hnotmem b hb hEq.symm, hPe⟩
      · rw [List.pairwise_cons]
        exact ⟨fun b hb hEq => hfresh b hb hEq.symm, hPi⟩

theorem DbInv_update {te : Bool} {db : List Entity} {id : String} {u : UpdateBody}
    {now : Nat} {st : Entity} {db2 : List Entity}
    (hinv : DbInv db) (h : findByIdAndUpdate te db id u now = .ok (some (st, db2))) :
    DbInv db2 := by
  obtain ⟨hE, hPe, hPi⟩ := hinv
  unfold findByIdAndUpdate at h
  split at h
  · split at h
    next hfind => exact absurd h (by simp)
    next e hfind =>
      have heMem : e ∈ db := List.mem_of_find?_eq_some hfind
      have heId : e.id = id := by simpa using List.find?_some hfind
      split at h
      next hname => cases h
      next n2 hname =>
        split at h
        next hage => cases h
        next a2 hage =>
          split at h
          next hemail => cases h
          next m2 emailUpdated hemail =>
            split at h
            next hdup => cases h
            next hdup =>
              rw [Except.ok.injEq, Option.some.injEq, Prod.mk.injEq] at h
              obtain ⟨hst, hdb2⟩ := h
              subst hst
              subst hdb2
              have hm2 : EmailOk m2 ∧ (emailUpdated = false → m2 = e.email) := by
                rcases hu : u.email with _ | m
                · rw [hu] at hemail
                  have hemail2 : some (e.email, false) = some (m2, emailUpdated) := hemail
                  rw [Option.some.injEq, Prod.mk.injEq] at hemail2
                  obtain ⟨h1, h2⟩ := hemail2
                  subst h1
                  exact ⟨hE e heMem, fun _ => rfl⟩
                · rw [hu] at hemail
                  have hemail2 : (if emailAccepts (normEmail te m) = true then
                      some (normEmail te m, true) else none) = some (m2, emailUpdated) := hemail
                  by_cases hacc : emailAccepts (normEmail te m) = true
                  · rw [if_pos hacc] at hemail2
                    rw [Option.some.injEq, Prod.mk.injEq] at hemail2
                    obtain ⟨h1, h2⟩ := hemail2
                    subst h1
                    subst h2
                    exact ⟨EmailOk_norm hacc, fun hf => absurd hf (by decide)⟩
                  · rw [if_neg hacc] at hemail2
                    exact Option.noConfusion hemail2
              have hup : emailUpdated = true → ∀ s ∈ db, s.id ≠ id → m2 ≠ s.email := by
                intro hups s hs hsid hEq
                apply hdup
                rw [hups, Bool.true_and]
                exact List.any_eq_true.mpr ⟨s, hs, by simp [hsid, hEq.symm]⟩
              have hfid : ∀ s ∈ db, ((if s.id == id then
                  (⟨e.id, n2, a2, m2, e.createdAt, now⟩ : Entity) else s)).id = s.id := by
                intro s hs
                by_cases hsid : (s.id == id) = true
                · simp only [hsid, if_true]
                  have : s.id = id := by simpa using hsid
                  rw [heId, this]
                · simp [hsid]
              refine ⟨?_, ?_, ?_⟩
              · intro s' hs'
                obtain ⟨s, hs, rfl⟩ := List.mem_map.mp hs'
                by_cases hsid : (s.id == id) = true
                · simp only [hsid, if_true]
                  exact hm2.1
                · simp only [hsid, if_false]
                  exact hE s hs
              · rw [List.pairwise_map]
                refine (hPe.and hPi).imp_of_mem ?_
                intro a b ha hb hab
                obtain ⟨habE, habI⟩ := hab
                by_cases hA : (a.id == id) = true
                · have haE : a = e := id_unique hPi ha heMem
                    (by rw [heId]; simpa using hA)
                  by_cases hB : (b.id == id) = true
                  · have hbE : b = e := id_unique hPi hb heMem
                      (by rw [heId]; simpa using hB)
                    exact absurd (by rw [haE, hbE]) habI
                  · simp only [hA, hB, if_true, if_false]
                    cases hups : emailUpdated with
                    | true =>
                      exact hup hups b hb (by simpa using hB)
                    | false =>
                      rw [hm2.2 hups, ← haE]
                      exact habE
                · by_cases hB : (b.id == id) = true
                  · have hbE : b = e := id_unique hPi hb heMem
                      (by rw [heId]; simpa using hB)
                    simp only [hA, hB, if_true, if_false]
                    cases hups : emailUpdated with
                    | true =>
                      exact fun hEq => hup hups a ha (by simpa using hA) hEq.symm
                    | false =>
                      rw [hm2.2 hups, ← hbE]
                      exact habE
                  · simp only [hA, hB, if_false]
                    exact habE
              · rw [List.pairwise_map]
                refine hPi.imp_of_mem ?_
                intro a b ha hb hab
                rw [hfid a ha, hfid b hb]
                exact hab
  · cases h

theorem DbInv_delete {db : List Entity} {id : String} {st : Entity} {db2 : List Entity}
    (hinv : DbInv db) (h : findByIdAndDelete db id = .ok (some (st, db2))) :
    DbInv db2 := by
  obtain ⟨hE, hPe, hPi⟩ := hinv
  unfold findByIdAndDelete at h
  split at h
  · split at h
    next hfind => exact absurd h (by simp)
    next e hfind =>
      rw [Except.ok.injEq, Option.some.injEq, Prod.mk.injEq] at h
      obtain ⟨-, hdb2⟩ := h
      subst hdb2
      refine ⟨?_, ?_, ?_⟩
      · intro s hs
        exact hE s (List.mem_of_mem_filter hs)
      · exact List.Pairwise.sublist (List.filter_sublist db) hPe
      · exact List.Pairwise.sublist (List.filter_sublist db) hPi
  · cases h

/-- C3: the stored-email invariant holds for every reachable store of either
kind (`te` selects Student or Instructor): the empty store satisfies it, and
it is preserved by create, update and delete.  `DbInv` states that every
stored email matches `^\S+@\S+\.\S+$`, is fixed by whitespace-trimming, is
fixed by lowercasing, and that emails are pairwise distinct (and ids
pairwise distinct; create receives a fresh ObjectId). -/
theorem C3_email_invariant :
    DbInv [] ∧
    (∀ (te : Bool) (db : List Entity) (c : Candidate) (i : String) (now : Nat)
      (st : Entity) (db2 : List Entity),
      DbInv db → (∀ s ∈ db, s.id ≠ i) →
      saveEntity te db c i now = .ok (st, db2) → DbInv db2) ∧
    (∀ (te : Bool) (db : List Entity) (id : String) (u : UpdateBody) (now : Nat)
      (st : Entity) (db2 : List Entity),
      DbInv db → findByIdAndUpdate te db id u now = .ok (some (st, db2)) → DbInv db2) ∧
    (∀ (db : List Entity) (id : String) (st : Entity) (db2 : List Entity),
      DbInv db → findByIdAndDelete db id = .ok (some (st, db2)) → DbInv db2) :=
  ⟨by simp [DbInv],
    fun _ _ _ _ _ _ _ hinv hfresh h => DbInv_save hinv hfresh h,
    fun _ _ _ _ _ _ _ hinv h => DbInv_update hinv h,
    fun _ _ _ _ hinv h => DbInv_delete hinv h⟩

/-- Witness for C3: creating a student from the raw input `"Ann@x.com "`-like
fields (uppercase letter in the email) yields a store whose single email is
stored lowercased, trim-fixed, pattern-valid and trivially unique. -/
theorem C3_email_invariant_witness :
    DbInv [⟨"aaaaaaaaaaaaaaaaaaaaaaaa", ['a', 'n', 'n'], mkRat 20 1,
      ['a', 'n', 'n', '@', 'x', '.', 'c', 'o', 'm'], 5, 5⟩] :=
  C3_email_invariant.2.1 true []
    ⟨some ['a', 'n', 'n'], some (mkRat 20 1),
      some ['A', 'n', 'n', '@', 'x', '.', 'c', 'o', 'm', ' ']⟩
    "aaaaaaaaaaaaaaaaaaaaaaaa" 5 _ _ (by simp [DbInv]) (by simp) rfl

/- ### C1 / C2: the search pipeline -/

theorem searchQuery_mem {db : List Entity} {q : List Char} {r : SearchDoc}
    (h : r ∈ searchQuery db q) :
    ∃ s ∈ db, searchFilter q s = true ∧ r = ⟨s.id, s.name, s.age, s.email⟩ := by
  unfold searchQuery at h
  obtain ⟨s, hs, rfl⟩ := List.mem_map.mp h
  have hs2 : s ∈ List.insertionSort entLe (db.filter (searchFilter q)) :=
    (List.take_sublist 50 _).subset hs
  have hs3 : s ∈ db.filter (searchFilter q) :=
    ((List.perm_insertionSort entLe _).mem_iff).mp hs2
  obtain ⟨hmem, hfil⟩ := List.mem_filter.mp hs3
  exact ⟨s, hmem, hfil, rfl⟩

theorem GET_search_some (conn : Except Unit Unit) (db : List Entity) (q0 : List Char) :
    GET_students_search conn db (some q0) =
      if (trimChars q0).isEmpty = true then (200, some [])
      else
        match conn with
        | .error _ => (500, none)
        | .ok _ => (200, some (searchQuery db (trimChars q0))) := rfl

theorem searchFilter_iff {q : List Char} {s : Entity}
    (hq : ∀ c ∈ q, jsRegexMeta c = false) :
    searchFilter q s = true ↔ (substrI q s.name ∨ substrI q s.email) := by
  have hdot : '.' ∉ q := by
    intro hmem
    have := hq '.' hmem
    simp [jsRegexMeta] at this
  rw [searchFilter, Bool.or_eq_true, found_parseQuery hdot, found_parseQuery hdot]

/-- C1 amended: the route hands the raw query to `new RegExp(q, 'i')`, so the
query is interpreted as a regular expression, not as a literal string.  For
every query that is free of JS regex metacharacters the claimed behaviour
does hold: the response is 200 with exactly the documents whose name or
email contains the (trimmed) query as a case-insensitive substring —
every returned row comes from such a document, and when at most 50 documents
match, every matching document is returned — sorted by name ascending and
capped at 50 rows. -/
theorem C1_search_literal_query (db : List Entity) (q0 q : List Char)
    (hq : trimChars q0 = q) (hne : q ≠ [])
    (hlit : ∀ c ∈ q, jsRegexMeta c = false) :
    GET_students_search (.ok ()) db (some q0) = (200, some (searchQuery db q)) ∧
    (searchQuery db q).length ≤ 50 ∧
    List.Pairwise (fun a b : SearchDoc => nameLe a.name b.name = true) (searchQuery db q) ∧
    (∀ r ∈ searchQuery db q, ∃ s ∈ db,
      (substrI q s.name ∨ substrI q s.email) ∧ r = ⟨s.id, s.name, s.age, s.email⟩) ∧
    ((db.filter (searchFilter q)).length ≤ 50 →
      ∀ s ∈ db, (substrI q s.name ∨ substrI q s.email) →
        (⟨s.id, s.name, s.age, s.email⟩ : SearchDoc) ∈ searchQuery db q) := by
  have hni : q.isEmpty = false := by
    cases q with
    | nil => exact absurd rfl hne
    | cons a t => rfl
  refine ⟨?_, ?_, ?_, ?_, ?_⟩
  · rw [GET_search_some, hq, hni]
    simp
  · unfold searchQuery
    rw [List.length_map, List.length_take]
    exact min_le_left _ _
  · have hsorted := List.sorted_insertionSort entLe (db.filter (searchFilter q))
    have htake : List.Pairwise entLe
        ((List.insertionSort entLe (db.filter (searchFilter q))).take 50) :=
      List.Pairwise.sublist (List.take_sublist 50 _) hsorted
    unfold searchQuery
    rw [List.pairwise_map]
    exact htake
  · intro r hr
    obtain ⟨s, hmem, hfil, hproj⟩ := searchQuery_mem hr
    exact ⟨s, hmem, (searchFilter_iff hlit).mp hfil, hproj⟩
  · intro hle s hs hmatch
    have hfil : searchFilter q s = true := (searchFilter_iff hlit).mpr hmatch
    have hsmem : s ∈ db.filter (searchFilter q) := List.mem_filter.mpr ⟨hs, hfil⟩
    have hsort_len : (List.insertionSort entLe (db.filter (searchFilter q))).length ≤ 50 := by
      rw [(List.perm_insertionSort entLe _).length_eq]
      exact hle
    unfold searchQuery
    rw [List.take_of_length_le hsort_len]
    exact List.mem_map_of_mem _ ((List.perm_insertionSort entLe _).mem_iff.mpr hsmem)

/-- Counterexample to C1 as stated: with the single stored student named
"xyz" (email "q@w.e"), the query "x.z" — which contains neither name nor
email as a substring, case-insensitively or otherwise — still returns that
student, because the unescaped query is compiled as a regular expression in
which `.` matches any character. -/
theorem C1_search_counterexample :
    GET_students_search (.ok ())
      [⟨"aaaaaaaaaaaaaaaaaaaaaaaa", ['x', 'y', 'z'], mkRat 20 1,
        ['q', '@', 'w', '.', 'e'], 0, 0⟩]
      (some ['x', '.', 'z']) =
      (200, some [⟨"aaaaaaaaaaaaaaaaaaaaaaaa", ['x', 'y', 'z'], mkRat 20 1,
        ['q', '@', 'w', '.', 'e']⟩]) ∧
    ¬ substrI ['x', '.', 'z'] ['x', 'y', 'z'] ∧
    ¬ substrI ['x', '.', 'z'] ['q', '@', 'w', '.', 'e'] := by
  refine ⟨rfl, by decide, by decide⟩

/-- The two students used by the C1 witness (the worked example of the
specification): "John Doe"/"a@x.com" matches "jo" in the name, and
"Amy"/"jo123@y.com" matches "jo" in the email. -/
def johnAmy : List Entity :=
  [⟨"aaaaaaaaaaaaaaaaaaaaaaaa", ['J', 'o', 'h', 'n', ' ', 'D', 'o', 'e'], mkRat 20 1,
    ['a', '@', 'x', '.', 'c', 'o', 'm'], 0, 0⟩,
   ⟨"bbbbbbbbbbbbbbbbbbbbbbbb", ['A', 'm', 'y'], mkRat 21 1,
    ['j', 'o', '1', '2', '3', '@', 'y', '.', 'c', 'o', 'm'], 1, 1⟩]

/-- Witness for C1 amended, on the specification's own example store and the
metacharacter-free query "jo". -/
theorem C1_search_literal_query_witness :
    GET_students_search (.ok ()) johnAmy (some ['j', 'o']) =
      (200, some (searchQuery johnAmy ['j', 'o'])) ∧
    (searchQuery johnAmy ['j', 'o']).length ≤ 50 ∧
    List.Pairwise (fun a b : SearchDoc => nameLe a.name b.name = true)
      (searchQuery johnAmy ['j', 'o']) ∧
    (∀ r ∈ searchQuery johnAmy ['j', 'o'], ∃ s ∈ johnAmy,
      (substrI ['j', 'o'] s.name ∨ substrI ['j', 'o'] s.email) ∧
      r = ⟨s.id, s.name, s.age, s.email⟩) ∧
    ((johnAmy.filter (searchFilter ['j', 'o'])).length ≤ 50 →
      ∀ s ∈ johnAmy, (substrI ['j', 'o'] s.name ∨ substrI ['j', 'o'] s.email) →
        (⟨s.id, s.name, s.age, s.email⟩ : SearchDoc) ∈ searchQuery johnAmy ['j', 'o']) :=
  C1_search_literal_query johnAmy ['j', 'o'] ['j', 'o'] rfl (by decide) (by decide)

/-- Counterexample to C2 as stated: two stores that agree on every `name`,
`age` and `email` and differ only in the stored id produce different search
responses — impossible if the id were omitted from each returned record, so
the projection does NOT reduce results to `{name, age, email}` alone. -/
theorem C2_search_counterexample :
    GET_students_search (.ok ())
      [⟨"aaaaaaaaaaaaaaaaaaaaaaaa", ['x', 'y', 'z'], mkRat 20 1,
        ['q', '@', 'w', '.', 'e'], 0, 0⟩]
      (some ['x', 'y', 'z']) ≠
    GET_students_search (.ok ())
      [⟨"bbbbbbbbbbbbbbbbbbbbbbbb", ['x', 'y', 'z'], mkRat 20 1,
        ['q', '@', 'w', '.', 'e'], 0, 0⟩]
      (some ['x', 'y', 'z']) := by
  decide

/-- C2 amended: `.select('name age email')` is an inclusive projection, and
Mongoose keeps `_id` unless it is excluded explicitly, so every search
result consists of the four fields `{_id, name, age, email}` of a stored
document — `createdAt`/`updatedAt` are dropped, the id is not. -/
theorem C2_projection_includes_id (conn : Except Unit Unit) (db : List Entity)
    (q : Option (List Char)) (st : Nat) (res : List SearchDoc)
    (h : GET_students_search conn db q = (st, some res)) :
    ∀ r ∈ res, ∃ s ∈ db, r = ⟨s.id, s.name, s.age, s.email⟩ := by
  rcases q with _ | q0
  · have h2 : ((200 : Nat), some ([] : List SearchDoc)) = (st, some res) := h
    rw [Prod.mk.injEq, Option.some.injEq] at h2
    intro r hr
    rw [← h2.2] at hr
    cases hr
  · rw [GET_search_some] at h
    by_cases hemp : (trimChars q0).isEmpty = true
    · rw [if_pos hemp] at h
      rw [Prod.mk.injEq, Option.some.injEq] at h
      intro r hr
      rw [← h.2] at hr
      cases hr
    · rw [if_neg hemp] at h
      rcases conn with _ | _
      · have h2 : ((500 : Nat), (none : Option (List SearchDoc))) = (st, some res) := h
        rw [Prod.mk.injEq] at h2
        exact absurd h2.2 (by simp)
      · have h2 : ((200 : Nat), some (searchQuery db (trimChars q0))) = (st, some res) := h
        rw [Prod.mk.injEq, Option.some.injEq] at h2
        intro r hr
        rw [← h2.2] at hr
        obtain ⟨s, hmem, _, hproj⟩ := searchQuery_mem hr
        exact ⟨s, hmem, hproj⟩

/-- Witness for C2 amended: the single result for query "xyz" carries the
stored document's id alongside name, age and email. -/
theorem C2_projection_includes_id_witness :
    ∃ s ∈ [(⟨"hhhhhhhhhhhhhhhhhhhhhhhh", ['x', 'y', 'z'], mkRat 20 1,
        ['q', '@', 'w', '.', 'e'], 0, 0⟩ : Entity)],
      (⟨"hhhhhhhhhhhhhhhhhhhhhhhh", ['x', 'y', 'z'], mkRat 20 1,
        ['q', '@', 'w', '.', 'e']⟩ : SearchDoc) = ⟨s.id, s.name, s.age, s.email⟩ :=
  C2_projection_includes_id (.ok ()) _ (some ['x', 'y', 'z']) 200 _ rfl _ (by decide)
